import Mathlib

/-!
# Verification of the statuspingme notification digest engine

Shallow embedding of the digest core of the repository:

* the durable job queue (`src/api/src/services/email.service.ts`, queue part:
  `enqueueJob`, `markJobProcessing`, `markJobCompleted`, `markJobFailed`,
  `cleanupOldJobs`),
* the digest computation and dispatch logic (`src/api/src/jobs/digest.job.ts`:
  `triggerInstantDigest`, `processInstantDigest`, `processScheduledDigest`,
  `processJob`, `updateLastSentAt`),
* the time-gated scheduler (`src/api/src/jobs/scheduler.ts`:
  `shouldRunDailyDigest`, `shouldRunWeeklyDigest`, `shouldRunCleanup`,
  `runSchedulerTick`),
* the public subscribe endpoint (`POST /timeline/:token/subscribe`).

Timestamps are modelled as natural numbers of milliseconds since the Unix
epoch (`Date.now()` semantics, `new Date(0)` is `0`).  Database tables are
modelled as lists of rows; a SQL `UPDATE ... WHERE` is a `List.map` that
rewrites matching rows.  The external email transport is a pure function
`String → Bool` giving, per recipient address, whether the send reports
success (`sendEmail` in the source never throws: it catches transport errors
and returns `{success: false}`) — email rendering is treated as opaque, per
the repository's own scoping of templates.  Database calls that the source
lets throw (project lookup, update lookup) are modelled with `Except`.
-/

namespace StatusPingMe

/-- Milliseconds in one minute. -/
def msPerMinute : Nat := 60 * 1000

/-- Milliseconds in one day. -/
def msPerDay : Nat := 24 * 60 * 60 * 1000

/-- Subscription frequency tier (`frequency` column of
`digest_subscriptions`). -/
inductive Frequency where
  | instant
  | daily
  | weekly
deriving DecidableEq, Repr

instance : BEq Frequency := ⟨fun a b => decide (a = b)⟩

/-- Job status (`status` column of `job_queue`). -/
inductive JobStatus where
  | pending
  | processing
  | completed
  | failed
deriving DecidableEq, Repr

instance : BEq JobStatus := ⟨fun a b => decide (a = b)⟩

/-- Type-specific job payload (`JobPayload` in the queue service):
`instant_digest` carries `{projectId, updateId, subscriberIds}`,
`daily_digest` and `weekly_digest` carry `{projectId}`. -/
inductive JobPayload where
  | instantDigest (projectId : Nat) (updateId : Nat) (subscriberIds : List Nat)
  | dailyDigest (projectId : Nat)
  | weeklyDigest (projectId : Nat)
deriving DecidableEq, Repr

/-- The `type` column of a job row is determined by which payload shape the
enqueue site paired with it (`enqueueJob<T extends JobType>` ties the two
together in the source). -/
inductive JobType where
  | instant_digest
  | daily_digest
  | weekly_digest
deriving DecidableEq, Repr

/-- Job type of a payload, as paired by every enqueue site. -/
def JobPayload.jobType : JobPayload → JobType
  | .instantDigest _ _ _ => .instant_digest
  | .dailyDigest _ => .daily_digest
  | .weeklyDigest _ => .weekly_digest

/-- A row of the `job_queue` table. -/
structure Job where
  id : Nat
  payload : JobPayload
  status : JobStatus
  attempts : Nat
  scheduledFor : Nat
  createdAt : Nat
deriving DecidableEq, Repr

/-- A row of the `digest_subscriptions` table. -/
structure Subscription where
  id : Nat
  projectId : Nat
  email : String
  frequency : Frequency
  lastSentAt : Option Nat
  createdAt : Nat
deriving DecidableEq, Repr

/-- A row of the `updates` table (the fields the digest core reads). -/
structure Update where
  id : Nat
  projectId : Nat
  createdAt : Nat
deriving DecidableEq, Repr

/-- `MAX_ATTEMPTS` from the queue service. -/
def MAX_ATTEMPTS : Nat := 3

/-- Look up the job row with the given id (`SELECT ... WHERE id = jobId`,
first row). -/
def jobRow (store : List Job) (jobId : Nat) : Option Job :=
  store.find? (fun j => j.id == jobId)

/-- `enqueueJob(type, payload, scheduledFor?)`: inserts a row with
`status: 'pending', attempts: 0, scheduledFor: scheduledFor || new Date()`.
`newId` stands for the generated primary key, `now` for the insert time. -/
def enqueueJob (store : List Job) (payload : JobPayload)
    (scheduledFor : Option Nat) (now newId : Nat) : List Job :=
  store ++ [{ id := newId, payload := payload, status := .pending,
              attempts := 0, scheduledFor := scheduledFor.getD now,
              createdAt := now }]

/-- `markJobProcessing(jobId)`: `UPDATE job_queue SET status='processing',
attempts = attempts + 1 WHERE id = jobId`. -/
def markJobProcessing (store : List Job) (jobId : Nat) : List Job :=
  store.map (fun j =>
    if j.id == jobId then
      { j with status := .processing, attempts := j.attempts + 1 }
    else j)

/-- `markJobCompleted(jobId)`: `UPDATE job_queue SET status='completed'
WHERE id = jobId`. -/
def markJobCompleted (store : List Job) (jobId : Nat) : List Job :=
  store.map (fun j => if j.id == jobId then { j with status := .completed } else j)

/-- `markJobFailed(jobId, error)`: selects the job row; if absent, returns.
Otherwise `newAttempts = (job.attempts || 0) + 1`;
`newStatus = newAttempts >= MAX_ATTEMPTS ? 'failed' : 'pending'`; updates
status and attempts, and sets
`scheduledFor = new Date(Date.now() + newAttempts * newAttempts * 60 * 1000)`
when retrying (`newStatus === 'pending'`), leaving `scheduledFor` untouched
(`undefined` in the drizzle `set`) when parking the job as `failed`. -/
def markJobFailed (store : List Job) (jobId : Nat) (now : Nat) : List Job :=
  match store.find? (fun j => j.id == jobId) with
  | none => store
  | some job =>
    let newAttempts := job.attempts + 1
    let newStatus : JobStatus := if MAX_ATTEMPTS ≤ newAttempts then .failed else .pending
    store.map (fun j =>
      if j.id == jobId then
        { j with status := newStatus, attempts := newAttempts,
                 scheduledFor :=
                   if newStatus == .pending then
                     now + newAttempts * newAttempts * msPerMinute
                   else j.scheduledFor }
      else j)

/-- A terminal job (`status IN ('completed', 'failed')`). -/
def Job.isTerminal (j : Job) : Bool :=
  j.status == .completed || j.status == .failed

/-- `cleanupOldJobs(olderThanDays)`: computes
`cutoff = new Date(Date.now() - olderThanDays * 24*60*60*1000)`, counts the
`completed`/`failed` rows with `createdAt <= cutoff`; if none, returns 0;
otherwise deletes exactly those rows and returns the count.  Returns
(count deleted, resulting store). -/
def cleanupOldJobs (store : List Job) (olderThanDays : Nat) (now : Nat) :
    Nat × List Job :=
  let cutoff := now - olderThanDays * msPerDay
  let toDelete := store.filter (fun j => j.isTerminal && decide (j.createdAt ≤ cutoff))
  if toDelete.length = 0 then
    (0, store)
  else
    (toDelete.length,
     store.filter (fun j => !(j.isTerminal && decide (j.createdAt ≤ cutoff))))

/-! ## Digest computation and dispatch (`digest.job.ts`) -/

/-- `updateLastSentAt(subscriptionIds)`: early-returns on an empty id list,
otherwise `UPDATE digest_subscriptions SET last_sent_at = new Date()
WHERE id IN subscriptionIds`. -/
def updateLastSentAt (db : List Subscription) (subscriptionIds : List Nat)
    (now : Nat) : List Subscription :=
  if subscriptionIds.isEmpty then db
  else
    db.map (fun s =>
      if subscriptionIds.contains s.id then { s with lastSentAt := some now }
      else s)

/-- `triggerInstantDigest(projectId, updateId)`: selects the project's
subscriptions with `frequency = 'instant'`; if there are none, logs and
returns without enqueueing; otherwise enqueues one `instant_digest` job whose
payload snapshots the subscriber ids.  Returns the job store. -/
def triggerInstantDigest (dbSubs : List Subscription) (jobs : List Job)
    (projectId updateId : Nat) (now newId : Nat) : List Job :=
  let subscribers := dbSubs.filter (fun s =>
    s.projectId == projectId && s.frequency == .instant)
  if subscribers.isEmpty then jobs
  else
    enqueueJob jobs
      (.instantDigest projectId updateId (subscribers.map (·.id))) none now newId

/-- Record of one transport call made while processing a digest job: the
subscription it targeted, the address, the ids of the updates rendered into
the email, the transport's reported outcome, and — for weekly digests — the
`weekStartDate` handed to the template (display only). -/
structure SendRecord where
  subId : Nat
  email : String
  updateIds : List Nat
  success : Bool
  displayStart : Option Nat
deriving DecidableEq, Repr

/-- The per-subscriber update window of `processScheduledDigest`:
`lastSent = subscriber.lastSentAt || new Date(0)` and then
`SELECT ... FROM updates WHERE project_id = projectId AND created_at > lastSent`.
(`getUpdatesWithMedia` then re-selects exactly these ids and joins media,
which does not change the update set.) -/
def updatesFor (allUpdates : List Update) (projectId : Nat)
    (subscriber : Subscription) : List Update :=
  allUpdates.filter (fun u =>
    u.projectId == projectId && decide (subscriber.lastSentAt.getD 0 < u.createdAt))

/-- Loop body of `processScheduledDigest` for one subscriber of the snapshot:
skip when the subscriber has no new updates; otherwise send (daily or weekly
template — for weekly the display range `[now - 7 days, now]` is passed
along) and, if the transport reports success, advance this subscriber's
watermark to `new Date()`.  The accumulator carries the evolving
`digest_subscriptions` table and the log of transport calls. -/
def scheduledStep (transport : String → Bool) (allUpdates : List Update)
    (projectId : Nat) (frequency : Frequency) (now : Nat)
    (acc : List Subscription × List SendRecord) (subscriber : Subscription) :
    List Subscription × List SendRecord :=
  let newUpdates := updatesFor allUpdates projectId subscriber
  if newUpdates.isEmpty then acc
  else
    let ok := transport subscriber.email
    let record : SendRecord :=
      { subId := subscriber.id, email := subscriber.email,
        updateIds := newUpdates.map (·.id), success := ok,
        displayStart := if frequency == .weekly then some (now - 7 * msPerDay)
                        else none }
    let db := if ok then updateLastSentAt acc.1 [subscriber.id] now else acc.1
    (db, acc.2 ++ [record])

/-- `processScheduledDigest(payload, frequency)`: throws if the project is
gone; selects the subscriptions with the matching frequency for the project;
returns early when there are none; otherwise iterates the snapshot
sequentially with `scheduledStep`.  Returns the resulting
`digest_subscriptions` table and the transport-call log. -/
def processScheduledDigest (projectIds : List Nat) (transport : String → Bool)
    (allUpdates : List Update) (dbSubs : List Subscription)
    (projectId : Nat) (frequency : Frequency) (now : Nat) :
    Except String (List Subscription × List SendRecord) :=
  if !(projectIds.contains projectId) then
    .error "project not found"
  else
    let subscribers := dbSubs.filter (fun s =>
      s.projectId == projectId && s.frequency == frequency)
    if subscribers.isEmpty then .ok (dbSubs, [])
    else .ok (subscribers.foldl
      (scheduledStep transport allUpdates projectId frequency now) (dbSubs, []))

/-- `processInstantDigest(payload)`: throws if the project or the update is
gone; re-fetches the snapshotted subscriptions by id (for their addresses);
sends to each (in chunks of 5 — with a deterministic transport the chunking
does not affect which sends succeed); advances `last_sent_at` for exactly
the successful subscription ids. -/
def processInstantDigest (projectIds : List Nat) (transport : String → Bool)
    (allUpdates : List Update) (dbSubs : List Subscription)
    (projectId updateId : Nat) (subscriberIds : List Nat) (now : Nat) :
    Except String (List Subscription) :=
  if !(projectIds.contains projectId) then
    .error "project not found"
  else if !(allUpdates.any (fun u => u.id == updateId)) then
    .error "update not found"
  else
    let subscribers := dbSubs.filter (fun s => subscriberIds.contains s.id)
    let successfulIds := (subscribers.filter (fun s => transport s.email)).map (·.id)
    .ok (updateLastSentAt dbSubs successfulIds now)

/-- `processJob(job)`: `markJobProcessing`, then dispatch on the job type;
on normal completion `markJobCompleted`, on a throw `markJobFailed` (and the
digest-side state is whatever the body left — the bodies above only throw
before touching any subscription row).  Returns the job store and the
`digest_subscriptions` table. -/
def processJob (projectIds : List Nat) (transport : String → Bool)
    (allUpdates : List Update) (jobs : List Job) (dbSubs : List Subscription)
    (job : Job) (now : Nat) : List Job × List Subscription :=
  let jobs1 := markJobProcessing jobs job.id
  let body : Except String (List Subscription) :=
    match job.payload with
    | .instantDigest pid uid sids =>
        processInstantDigest projectIds transport allUpdates dbSubs pid uid sids now
    | .dailyDigest pid =>
        (processScheduledDigest projectIds transport allUpdates dbSubs pid .daily now).map (·.1)
    | .weeklyDigest pid =>
        (processScheduledDigest projectIds transport allUpdates dbSubs pid .weekly now).map (·.1)
  match body with
  | .ok dbSubs2 => (markJobCompleted jobs1 job.id, dbSubs2)
  | .error _ => (markJobFailed jobs1 job.id now, dbSubs)

/-- Watermark of the subscription row with the given id: `none` when no such
row exists, `some w` when the row exists with `last_sent_at = w`. -/
def watermarkOf (db : List Subscription) (subId : Nat) : Option (Option Nat) :=
  (db.find? (fun s => s.id == subId)).map (·.lastSentAt)

/-! ## Scheduler (`scheduler.ts`) -/

/-- In-memory per-cadence `last_run` state of the scheduler. -/
structure ScheduleState where
  dailyDigest : Option Nat
  weeklyDigest : Option Nat
  cleanup : Option Nat
deriving DecidableEq, Repr

/-- `DAILY_DIGEST_HOUR` (9:00 UTC). -/
def DAILY_DIGEST_HOUR : Nat := 9

/-- `WEEKLY_DIGEST_DAY` (Sunday, `getUTCDay() = 0`). -/
def WEEKLY_DIGEST_DAY : Nat := 0

/-- `WEEKLY_DIGEST_HOUR` (10:00 UTC). -/
def WEEKLY_DIGEST_HOUR : Nat := 10

/-- `CLEANUP_HOUR` (3:00 UTC). -/
def CLEANUP_HOUR : Nat := 3

/-- Midnight UTC of the day containing `now`
(what `new Date(now).setUTCHours(h, 0, 0, 0)` starts from). -/
def dayStartOf (now : Nat) : Nat := now - now % msPerDay

/-- `getUTCDay()` of a timestamp: the Unix epoch fell on a Thursday (day 4). -/
def utcDayOf (now : Nat) : Nat := (now / msPerDay + 4) % 7

/-- `shouldRunDailyDigest()`: today's target is 09:00 UTC; false before it,
false when `scheduleState.dailyDigest` is set and `>= todayTarget`
(already ran today), true otherwise. -/
def shouldRunDailyDigest (st : ScheduleState) (now : Nat) : Bool :=
  let todayTarget := dayStartOf now + DAILY_DIGEST_HOUR * 60 * msPerMinute
  if now < todayTarget then false
  else
    match st.dailyDigest with
    | some t => !(decide (todayTarget ≤ t))
    | none => true

/-- `shouldRunWeeklyDigest()`: false unless `getUTCDay()` is Sunday; then the
same pattern as daily with target 10:00 UTC against
`scheduleState.weeklyDigest`. -/
def shouldRunWeeklyDigest (st : ScheduleState) (now : Nat) : Bool :=
  if utcDayOf now ≠ WEEKLY_DIGEST_DAY then false
  else
    let todayTarget := dayStartOf now + WEEKLY_DIGEST_HOUR * 60 * msPerMinute
    if now < todayTarget then false
    else
      match st.weeklyDigest with
      | some t => !(decide (todayTarget ≤ t))
      | none => true

/-- `shouldRunCleanup()`: daily pattern with target 03:00 UTC against
`scheduleState.cleanup`. -/
def shouldRunCleanup (st : ScheduleState) (now : Nat) : Bool :=
  let todayTarget := dayStartOf now + CLEANUP_HOUR * 60 * msPerMinute
  if now < todayTarget then false
  else
    match st.cleanup with
    | some t => !(decide (todayTarget ≤ t))
    | none => true

/-- `runSchedulerTick()`, restricted to its effect on the schedule state.
For each cadence whose `shouldRun...()` gate is open, the source runs
`try { await <enqueue or purge>; scheduleState.<cadence> = new Date(); }
catch { <log> }` — the outcome of the awaited call is passed here as an
`Except` (`.ok` = returned, `.error` = threw), so the `last_run` assignment
executes exactly when the call did not throw.  The unconditional
`runJobProcessor()` drain at the end of the tick does not touch the schedule
state and is modelled separately via `processJob`. -/
def runSchedulerTick (st : ScheduleState) (now : Nat)
    (dailyResult : Except String Unit) (weeklyResult : Except String Unit)
    (cleanupResult : Except String Nat) : ScheduleState :=
  let st1 :=
    if shouldRunDailyDigest st now then
      match dailyResult with
      | .ok _ => { st with dailyDigest := some now }
      | .error _ => st
    else st
  let st2 :=
    if shouldRunWeeklyDigest st1 now then
      match weeklyResult with
      | .ok _ => { st1 with weeklyDigest := some now }
      | .error _ => st1
    else st1
  if shouldRunCleanup st2 now then
    match cleanupResult with
    | .ok _ => { st2 with cleanup := some now }
    | .error _ => st2
  else st2

/-! ## Public subscribe endpoint (`POST /timeline/:token/subscribe`) -/

/-- The database effect of the subscribe handler once validation and project
lookup have passed (`email` stands for the already-normalized
`email.toLowerCase().trim()`, which the handler uses consistently for both
the lookup and the insert): `findFirst` on `(project_id, email)`; when a row
exists, `UPDATE digest_subscriptions SET frequency = normalizedFrequency
WHERE id = existing.id`; otherwise `INSERT` a fresh row (whose `last_sent_at`
defaults to null). -/
def subscribeToProject (dbSubs : List Subscription) (projectId : Nat)
    (email : String) (frequency : Frequency) (now newId : Nat) :
    List Subscription :=
  match dbSubs.find? (fun s => s.projectId == projectId && s.email == email) with
  | some existing =>
      dbSubs.map (fun s =>
        if s.id == existing.id then { s with frequency := frequency } else s)
  | none =>
      dbSubs ++ [{ id := newId, projectId := projectId, email := email,
                   frequency := frequency, lastSentAt := none, createdAt := now }]

/-! ## Digest-processing operations as a sequence (for watermark
monotonicity) -/

/-- One digest-processing operation, as dispatched by `processJob`: an
`instant_digest` job body or a `daily`/`weekly` scheduled job body, each
carrying the transport behaviour and the wall-clock instant (`new Date()`)
at which it runs. -/
inductive DigestOp where
  | instant (projectId updateId : Nat) (subscriberIds : List Nat)
      (transport : String → Bool) (now : Nat)
  | scheduled (projectId : Nat) (frequency : Frequency)
      (transport : String → Bool) (now : Nat)

/-- The wall-clock instant at which the operation runs. -/
def DigestOp.time : DigestOp → Nat
  | .instant _ _ _ _ now => now
  | .scheduled _ _ _ now => now

/-- Effect of one digest-processing operation on the
`digest_subscriptions` table; a thrown body (`.error`) leaves the table as
it was (the bodies only throw before touching any subscription row, and
`processJob` catches the throw). -/
def applyDigestOp (projectIds : List Nat) (allUpdates : List Update)
    (subs : List Subscription) : DigestOp → List Subscription
  | .instant pid uid sids transport now =>
      match processInstantDigest projectIds transport allUpdates subs pid uid sids now with
      | .ok subs' => subs'
      | .error _ => subs
  | .scheduled pid freq transport now =>
      match processScheduledDigest projectIds transport allUpdates subs pid freq now with
      | .ok result => result.1
      | .error _ => subs

/-- Effect of a sequence of digest-processing operations. -/
def applyDigestOps (projectIds : List Nat) (allUpdates : List Update)
    (subs : List Subscription) (ops : List DigestOp) : List Subscription :=
  ops.foldl (applyDigestOp projectIds allUpdates) subs

/-- Row-wise effect of one operation run at instant `now`: a subscription
row is either untouched or has its watermark overwritten with `now`. -/
def WatermarkStep (now : Nat) (x y : Subscription) : Prop :=
  y = x ∨ y = { x with lastSentAt := some now }

/-- Row-wise watermark monotonicity: same row id, and a present watermark
never decreases. -/
def SubMono (x y : Subscription) : Prop :=
  y.id = x.id ∧ ∀ a, x.lastSentAt = some a → ∃ b, y.lastSentAt = some b ∧ a ≤ b

/-! ## Generic list helpers -/

/-- `find?` returns the designated element when it is the unique match. -/
theorem find?_eq_some_of_unique {α} {p : α → Bool} {l : List α} {x : α}
    (hm : x ∈ l) (hp : p x = true) (huniq : ∀ y ∈ l, p y = true → y = x) :
    l.find? p = some x := by
  induction l with
  | nil => cases hm
  | cons a l ih =>
    rcases List.mem_cons.mp hm with rfl | hm'
    · simp [List.find?, hp]
    · by_cases ha : p a = true
      · have : a = x := huniq a (List.mem_cons_self a l) ha
        subst this
        simp [List.find?, hp]
      · simp only [List.find?, Bool.not_eq_true] at ha ⊢
        rw [ha]
        exact ih hm' (fun y hy hpy => huniq y (List.mem_cons_of_mem a hy) hpy)

/-- On a duplicate-free list, filtering by a predicate whose unique match is
`x` yields `[x]`. -/
theorem filter_eq_singleton_of_unique {α} {p : α → Bool} {l : List α} {x : α}
    (hnd : l.Nodup) (hm : x ∈ l) (hp : p x = true)
    (huniq : ∀ y ∈ l, p y = true → y = x) : l.filter p = [x] := by
  induction l with
  | nil => cases hm
  | cons a l ih =>
    rcases List.nodup_cons.mp hnd with ⟨hna, hndl⟩
    rcases List.mem_cons.mp hm with rfl | hm'
    · have hrest : l.filter p = [] := by
        rw [List.filter_eq_nil_iff]
        intro y hy hpy
        exact hna (huniq y (List.mem_cons_of_mem _ hy) hpy ▸ hy)
      simp [List.filter_cons, hp, hrest]
    · have hax : p a ≠ true := by
        intro hpa
        exact hna ((huniq a (List.mem_cons_self a l) hpa) ▸ hm')
      simp only [List.filter_cons, Bool.not_eq_true] at hax ⊢
      rw [hax]
      exact ih hndl hm' (fun y hy hpy => huniq y (List.mem_cons_of_mem a hy) hpy)

/-- `jobRow` sees through an id-preserving row rewrite (`UPDATE`). -/
theorem jobRow_map_id_preserving (store : List Job) (jobId : Nat)
    (f : Job → Job) (hf : ∀ x, (f x).id = x.id) :
    jobRow (store.map f) jobId = (jobRow store jobId).map f := by
  unfold jobRow
  rw [List.find?_map]
  have hp : ((fun x : Job => x.id == jobId) ∘ f) = (fun x : Job => x.id == jobId) := by
    funext x
    simp [Function.comp, hf]
  rw [hp]

/-- With unique ids, the row lookup for `j.id` returns `j`. -/
theorem jobRow_eq_self (store : List Job) (j : Job)
    (hmem : j ∈ store) (hnd : (store.map (·.id)).Nodup) :
    jobRow store j.id = some j := by
  unfold jobRow
  exact find?_eq_some_of_unique hmem (by simp)
    (fun y hy hpy => List.inj_on_of_nodup_map hnd hy hmem (by simpa using hpy))

/-- `markJobProcessing` on the row with id `j.id`: status `processing`,
attempts incremented, everything else untouched. -/
theorem markJobProcessing_jobRow (store : List Job) (j : Job)
    (hmem : j ∈ store) (hnd : (store.map (·.id)).Nodup) :
    jobRow (markJobProcessing store j.id) j.id =
      some { j with status := .processing, attempts := j.attempts + 1 } := by
  unfold markJobProcessing
  rw [jobRow_map_id_preserving _ _ _ (fun x => by by_cases hx : x.id == j.id <;> simp [hx]),
      jobRow_eq_self store j hmem hnd]
  simp

/-- `markJobFailed` on a present row: the row's attempts become
`attempts + 1`; with `attempts + 1 ≥ MAX_ATTEMPTS` the row is parked as
`failed` with `scheduled_for` untouched, otherwise it returns to `pending`
with `scheduled_for = now + (attempts+1)² minutes`. -/
theorem markJobFailed_jobRow (store : List Job) (j : Job) (now : Nat)
    (hmem : j ∈ store) (hnd : (store.map (·.id)).Nodup) :
    jobRow (markJobFailed store j.id now) j.id =
      some { j with
        status := if MAX_ATTEMPTS ≤ j.attempts + 1 then .failed else .pending,
        attempts := j.attempts + 1,
        scheduledFor := if MAX_ATTEMPTS ≤ j.attempts + 1 then j.scheduledFor
                        else now + (j.attempts + 1) * (j.attempts + 1) * msPerMinute } := by
  unfold markJobFailed
  rw [show store.find? (fun x => x.id == j.id) = some j from
    find?_eq_some_of_unique hmem (by simp)
      (fun y hy hpy => List.inj_on_of_nodup_map hnd hy hmem (by simpa using hpy))]
  simp only
  rw [jobRow_map_id_preserving _ _ _
    (fun x => by by_cases hx : x.id == j.id <;> simp [hx]),
      jobRow_eq_self store j hmem hnd]
  by_cases hcap : MAX_ATTEMPTS ≤ j.attempts + 1 <;> simp [hcap]

/-- `markJobProcessing` preserves the id column, hence membership of the
rewritten row and id-uniqueness. -/
theorem markJobProcessing_ids (store : List Job) (jobId : Nat) :
    (markJobProcessing store jobId).map (·.id) = store.map (·.id) := by
  unfold markJobProcessing
  rw [List.map_map]
  congr 1
  funext x
  by_cases hx : x.id == jobId <;> simp [Function.comp, hx]

/-! ## Claim theorems -/

/-- C8: Purging old jobs is idempotent: for any job-store state, running the
purge (delete completed/failed jobs with `created_at` older than the cutoff)
and then running it again with the same cutoff makes the second run delete
nothing and return 0; each run returns the count of jobs deleted. -/
theorem cleanupOldJobs_idempotent (store : List Job) (olderThanDays now : Nat) :
    (cleanupOldJobs store olderThanDays now).1 =
      (store.filter (fun j =>
        j.isTerminal && decide (j.createdAt ≤ now - olderThanDays * msPerDay))).length ∧
    (cleanupOldJobs (cleanupOldJobs store olderThanDays now).2 olderThanDays now).1 = 0 ∧
    (cleanupOldJobs (cleanupOldJobs store olderThanDays now).2 olderThanDays now).2 =
      (cleanupOldJobs store olderThanDays now).2 := by
  unfold cleanupOldJobs
  by_cases h : (store.filter (fun j =>
      j.isTerminal && decide (j.createdAt ≤ now - olderThanDays * msPerDay))).length = 0
  · simp only [h, if_pos rfl]
    simp [h]
  · simp only [if_neg h]
    have hsecond : ((store.filter (fun j =>
        !(j.isTerminal && decide (j.createdAt ≤ now - olderThanDays * msPerDay)))).filter
          (fun j => j.isTerminal && decide (j.createdAt ≤ now - olderThanDays * msPerDay))) = [] := by
      rw [List.filter_eq_nil_iff]
      intro j hj hpj
      have := (List.mem_filter.mp hj).2
      simp only [Bool.not_eq_true'] at this
      rw [this] at hpj
      cases hpj
    simp [hsecond]

/-- C1 counterexample: the claim predicts that `mark_failed` compares the
*read* attempts value with `MAX_ATTEMPTS` and backs off by `attempts²`
minutes.  On a job whose one processing pass set `attempts = 1`, the claim
predicts `scheduled_for = now + 1² minutes`, but the code (which increments
again inside `markJobFailed`) yields `now + 4 minutes`; on a job with
`attempts = 2` (< 3) the claim predicts a `pending` retry, but the code
parks it as `failed`. -/
theorem markJobFailed_claim_counterexample :
    (jobRow (markJobFailed
        [{ id := 1, payload := .dailyDigest 7, status := .processing,
           attempts := 1, scheduledFor := 0, createdAt := 0 }] 1 1000) 1).map
        (·.scheduledFor) = some (1000 + 4 * msPerMinute) ∧
    ¬ ((jobRow (markJobFailed
        [{ id := 1, payload := .dailyDigest 7, status := .processing,
           attempts := 1, scheduledFor := 0, createdAt := 0 }] 1 1000) 1).map
        (·.scheduledFor) = some (1000 + 1 * 1 * msPerMinute)) ∧
    (jobRow (markJobFailed
        [{ id := 2, payload := .dailyDigest 7, status := .processing,
           attempts := 2, scheduledFor := 5, createdAt := 0 }] 2 1000) 2).map
        (·.status) = some .failed ∧
    ¬ ((jobRow (markJobFailed
        [{ id := 2, payload := .dailyDigest 7, status := .processing,
           attempts := 2, scheduledFor := 5, createdAt := 0 }] 2 1000) 2).map
        (·.status) = some .pending) := by
  decide

/-- C1 (amended): `markJobFailed` increments the stored attempts itself
(`newAttempts = attempts + 1`); it parks the job as `failed` (leaving
`scheduled_for` untouched) when `newAttempts ≥ MAX_ATTEMPTS (3)`, and
otherwise re-queues it as `pending` with
`scheduled_for = now + newAttempts² minutes`.  Since `markJobProcessing`
also increments attempts once per processing pass, a full failed pass raises
attempts by 2: a fresh job's first failure is retried with a 4-minute
backoff and its second failure is terminal. -/
theorem markJobFailed_amended (store : List Job) (j : Job) (now : Nat)
    (hmem : j ∈ store) (hnd : (store.map (·.id)).Nodup) :
    jobRow (markJobFailed store j.id now) j.id =
      some { j with
        status := if MAX_ATTEMPTS ≤ j.attempts + 1 then .failed else .pending,
        attempts := j.attempts + 1,
        scheduledFor := if MAX_ATTEMPTS ≤ j.attempts + 1 then j.scheduledFor
                        else now + (j.attempts + 1) * (j.attempts + 1) * msPerMinute } ∧
    jobRow (markJobFailed (markJobProcessing store j.id) j.id now) j.id =
      some { j with
        status := if MAX_ATTEMPTS ≤ j.attempts + 2 then .failed else .pending,
        attempts := j.attempts + 2,
        scheduledFor := if MAX_ATTEMPTS ≤ j.attempts + 2 then j.scheduledFor
                        else now + (j.attempts + 2) * (j.attempts + 2) * msPerMinute } := by
  refine ⟨markJobFailed_jobRow store j now hmem hnd, ?_⟩
  have hmem' : { j with status := JobStatus.processing, attempts := j.attempts + 1 } ∈
      markJobProcessing store j.id := by
    unfold markJobProcessing
    exact List.mem_map.mpr ⟨j, hmem, by simp⟩
  have hnd' : ((markJobProcessing store j.id).map (·.id)).Nodup := by
    rw [markJobProcessing_ids]
    exact hnd
  have h := markJobFailed_jobRow (markJobProcessing store j.id)
    { j with status := JobStatus.processing, attempts := j.attempts + 1 } now hmem' hnd'
  simpa using h

/-- Witness for C1 (amended) at a fresh job: the first failed pass re-queues
with a 4-minute backoff, and starting from the post-first-pass row the next
failed pass is terminal. -/
theorem markJobFailed_amended_witness :
    (jobRow (markJobFailed
        [{ id := 1, payload := .dailyDigest 7, status := .pending, attempts := 0,
           scheduledFor := 0, createdAt := 0 }] 1 1000) 1).map (·.scheduledFor) =
      some (1000 + 1 * msPerMinute) ∧
    (jobRow (markJobFailed (markJobProcessing
        [{ id := 1, payload := .dailyDigest 7, status := .pending, attempts := 0,
           scheduledFor := 0, createdAt := 0 }] 1) 1 1000) 1) =
      some { id := 1, payload := .dailyDigest 7, status := .pending, attempts := 2,
             scheduledFor := 1000 + 4 * msPerMinute, createdAt := 0 } := by
  have h := markJobFailed_amended
    [{ id := 1, payload := .dailyDigest 7, status := .pending, attempts := 0,
       scheduledFor := 0, createdAt := 0 }]
    { id := 1, payload := .dailyDigest 7, status := .pending, attempts := 0,
      scheduledFor := 0, createdAt := 0 } 1000 (by decide) (by decide)
  revert h
  decide

/-- C10: calling `markJobFailed` with a job id that does not exist in the job
store is a no-op: it returns the store unchanged (the source returns early
without issuing any update and without throwing). -/
theorem markJobFailed_missing_id_noop (store : List Job) (jobId now : Nat)
    (h : ∀ j ∈ store, j.id ≠ jobId) : markJobFailed store jobId now = store := by
  unfold markJobFailed
  have hfind : store.find? (fun j => j.id == jobId) = none := by
    rw [List.find?_eq_none]
    intro j hj
    simp [h j hj]
  rw [hfind]

/-- Witness for C10 at a concrete store: job id 99 is absent, so
`markJobFailed` leaves the store untouched. -/
theorem markJobFailed_missing_id_noop_witness :
    markJobFailed
      [{ id := 1, payload := .dailyDigest 7, status := .pending, attempts := 0,
         scheduledFor := 0, createdAt := 0 }] 99 1000 =
      [{ id := 1, payload := .dailyDigest 7, status := .pending, attempts := 0,
         scheduledFor := 0, createdAt := 0 }] :=
  markJobFailed_missing_id_noop _ 99 1000 (by decide)

/-- C4 counterexample: at 09:00 UTC with a blank schedule state the daily
cadence is due, but when the enqueue call throws, the tick leaves
`scheduleState.dailyDigest` at `none` — it is *not* updated to "now"
regardless of the throw, contrary to the claim. -/
theorem scheduler_lastRun_counterexample :
    shouldRunDailyDigest ⟨none, none, none⟩ 32400000 = true ∧
    (runSchedulerTick ⟨none, none, none⟩ 32400000
        (.error "enqueue failed") (.ok ()) (.ok 0)).dailyDigest = none ∧
    (none : Option Nat) ≠ some 32400000 := by
  decide

/-- C4 (amended): on a tick where a cadence is due, that cadence's
`last_run` is updated to "now" only when the enqueue/purge call returns
without throwing; when it throws, `last_run` is left unchanged — so the
failed cadence *is* retried on the next tick within the same window. -/
theorem scheduler_lastRun_amended (st : ScheduleState) (now : Nat)
    (dr : Except String Unit) (wr : Except String Unit) (cr : Except String Nat) :
    ((runSchedulerTick st now dr wr cr).dailyDigest =
      if shouldRunDailyDigest st now ∧ dr.isOk then some now else st.dailyDigest) ∧
    ((runSchedulerTick st now dr wr cr).weeklyDigest =
      if shouldRunWeeklyDigest st now ∧ wr.isOk then some now else st.weeklyDigest) ∧
    ((runSchedulerTick st now dr wr cr).cleanup =
      if shouldRunCleanup st now ∧ cr.isOk then some now else st.cleanup) ∧
    (∀ e now', shouldRunDailyDigest st now = true → dr = .error e →
      now ≤ now' → dayStartOf now' = dayStartOf now →
      shouldRunDailyDigest (runSchedulerTick st now dr wr cr) now' = true) := by
  have hkey : runSchedulerTick st now dr wr cr =
      { dailyDigest :=
          if shouldRunDailyDigest st now ∧ dr.isOk then some now else st.dailyDigest,
        weeklyDigest :=
          if shouldRunWeeklyDigest st now ∧ wr.isOk then some now else st.weeklyDigest,
        cleanup :=
          if shouldRunCleanup st now ∧ cr.isOk then some now else st.cleanup } := by
    have hst1 : (if shouldRunDailyDigest st now then
          match dr with
          | .ok _ => { st with dailyDigest := some now }
          | .error _ => st
        else st) =
        { st with dailyDigest :=
            if shouldRunDailyDigest st now ∧ dr.isOk then some now else st.dailyDigest } := by
      cases hd : shouldRunDailyDigest st now <;> cases dr <;>
        simp [Except.isOk, Except.toBool]
    unfold runSchedulerTick
    simp only []
    rw [hst1]
    have hwg : shouldRunWeeklyDigest
        { st with dailyDigest :=
            if shouldRunDailyDigest st now ∧ dr.isOk then some now else st.dailyDigest }
        now = shouldRunWeeklyDigest st now := rfl
    rw [hwg]
    have hst2 : (if shouldRunWeeklyDigest st now then
          match wr with
          | .ok _ => { st with
              dailyDigest :=
                if shouldRunDailyDigest st now ∧ dr.isOk then some now else st.dailyDigest,
              weeklyDigest := some now }
          | .error _ => { st with dailyDigest :=
              if shouldRunDailyDigest st now ∧ dr.isOk then some now else st.dailyDigest }
        else { st with dailyDigest :=
            if shouldRunDailyDigest st now ∧ dr.isOk then some now else st.dailyDigest }) =
        { st with
          dailyDigest :=
            if shouldRunDailyDigest st now ∧ dr.isOk then some now else st.dailyDigest,
          weeklyDigest :=
            if shouldRunWeeklyDigest st now ∧ wr.isOk then some now else st.weeklyDigest } := by
      cases hw : shouldRunWeeklyDigest st now <;> cases wr <;>
        simp [Except.isOk, Except.toBool]
    rw [hst2]
    have hcg : shouldRunCleanup
        { st with
          dailyDigest :=
            if shouldRunDailyDigest st now ∧ dr.isOk then some now else st.dailyDigest,
          weeklyDigest :=
            if shouldRunWeeklyDigest st now ∧ wr.isOk then some now else st.weeklyDigest }
        now = shouldRunCleanup st now := rfl
    rw [hcg]
    cases hc : shouldRunCleanup st now <;> cases cr <;>
      simp [Except.isOk, Except.toBool]
  refine ⟨by rw [hkey], by rw [hkey], by rw [hkey], ?_⟩
  intro e now' hgate hdr hle hday
  have hfield : (runSchedulerTick st now dr wr cr).dailyDigest = st.dailyDigest := by
    rw [hkey]
    simp [hdr, Except.isOk, Except.toBool]
  have htarget : ¬ (now < dayStartOf now + DAILY_DIGEST_HOUR * 60 * msPerMinute) := by
    intro hlt
    unfold shouldRunDailyDigest at hgate
    simp only [if_pos hlt] at hgate
    cases hgate
  unfold shouldRunDailyDigest at hgate ⊢
  rw [hfield, hday]
  rw [if_neg (by omega)]
  rw [if_neg htarget] at hgate
  exact hgate

/-- Witness for C4 (amended): at 09:00 UTC with a throwing daily enqueue,
`last_run` stays `none` and the daily cadence is still due on the next tick
30 seconds later. -/
theorem scheduler_lastRun_amended_witness :
    (runSchedulerTick ⟨none, none, none⟩ 32400000
        (.error "x") (.ok ()) (.ok 0)).dailyDigest = none ∧
    shouldRunDailyDigest (runSchedulerTick ⟨none, none, none⟩ 32400000
        (.error "x") (.ok ()) (.ok 0)) 32430000 = true := by
  have h := scheduler_lastRun_amended ⟨none, none, none⟩ 32400000
    (.error "x") (.ok ()) (.ok 0)
  refine ⟨by rw [h.1]; decide, ?_⟩
  exact h.2.2.2 "x" 32430000 (by decide) rfl (by decide) (by decide)

/-- `find?` on the subscription id column sees through an id-preserving row
rewrite. -/
theorem subRow_map_id_preserving (db : List Subscription) (subId : Nat)
    (f : Subscription → Subscription) (hf : ∀ x, (f x).id = x.id) :
    (db.map f).find? (fun s => s.id == subId) =
      (db.find? (fun s => s.id == subId)).map f := by
  rw [List.find?_map]
  have hp : ((fun s : Subscription => s.id == subId) ∘ f) =
      (fun s : Subscription => s.id == subId) := by
    funext x
    simp [Function.comp, hf]
  rw [hp]

/-- Effect of `updateLastSentAt` on a single row's watermark. -/
theorem watermarkOf_updateLastSentAt (db : List Subscription)
    (ids : List Nat) (now subId : Nat) :
    watermarkOf (updateLastSentAt db ids now) subId =
      (watermarkOf db subId).map
        (fun w => if ids.contains subId then some now else w) := by
  by_cases hids : ids.isEmpty
  · rcases List.isEmpty_iff.mp hids with rfl
    rw [show updateLastSentAt db [] now = db from rfl]
    cases hw : watermarkOf db subId <;> rfl
  · unfold updateLastSentAt watermarkOf
    rw [if_neg hids]
    rw [subRow_map_id_preserving db subId _ (fun x => by split <;> rfl)]
    cases hfind : db.find? (fun s => s.id == subId) with
    | none => rfl
    | some s =>
      have hsid : s.id = subId := by simpa using List.find?_some hfind
      simp only [Option.map_some']
      rw [hsid]
      split <;> rfl

/-- Whether `processScheduledDigest` performs a send for subscriber `s`
whose transport call reports success (the only situation in which the
subscriber's watermark is written). -/
def sendSucceedsFor (transport : String → Bool) (allUpdates : List Update)
    (projectId : Nat) (s : Subscription) : Bool :=
  !(updatesFor allUpdates projectId s).isEmpty && transport s.email

/-- The transport-call record `processScheduledDigest` produces for
subscriber `s` (when `s` has new updates). -/
def sendRecordFor (transport : String → Bool) (allUpdates : List Update)
    (projectId : Nat) (frequency : Frequency) (now : Nat) (s : Subscription) :
    SendRecord :=
  { subId := s.id, email := s.email,
    updateIds := (updatesFor allUpdates projectId s).map (·.id),
    success := transport s.email,
    displayStart := if frequency == .weekly then some (now - 7 * msPerDay)
                    else none }

/-- Evaluation of one iteration of the subscriber loop. -/
theorem scheduledStep_eval (transport : String → Bool)
    (allUpdates : List Update) (projectId : Nat) (frequency : Frequency)
    (now : Nat) (acc : List Subscription × List SendRecord)
    (s : Subscription) :
    scheduledStep transport allUpdates projectId frequency now acc s =
      if (updatesFor allUpdates projectId s).isEmpty then acc
      else ((if transport s.email then updateLastSentAt acc.1 [s.id] now else acc.1),
            acc.2 ++ [sendRecordFor transport allUpdates projectId frequency now s]) :=
  rfl

/-- Watermark characterization of the sequential subscriber loop: a row's
watermark becomes `now` exactly when some iterated subscriber with that id
had new updates and a successful send; otherwise it is untouched. -/
theorem scheduledFold_watermark (transport : String → Bool)
    (allUpdates : List Update) (projectId : Nat) (frequency : Frequency)
    (now : Nat) (subscribers : List Subscription)
    (db : List Subscription) (log : List SendRecord) (subId : Nat) :
    watermarkOf (subscribers.foldl
        (scheduledStep transport allUpdates projectId frequency now) (db, log)).1 subId =
      if subscribers.any (fun s =>
          s.id == subId && sendSucceedsFor transport allUpdates projectId s) then
        (watermarkOf db subId).map (fun _ => some now)
      else watermarkOf db subId := by
  induction subscribers generalizing db log with
  | nil => simp
  | cons s rest ih =>
    rw [List.foldl_cons, scheduledStep_eval, List.any_cons]
    dsimp only
    by_cases hempty : (updatesFor allUpdates projectId s).isEmpty
    · rw [if_pos hempty]
      have hcond : (s.id == subId &&
          sendSucceedsFor transport allUpdates projectId s) = false := by
        unfold sendSucceedsFor
        rw [hempty]
        simp
      rw [hcond, Bool.false_or]
      exact ih db log
    · rw [if_neg hempty]
      rw [Bool.not_eq_true] at hempty
      by_cases hok : transport s.email
      · rw [if_pos hok]
        have hssf : sendSucceedsFor transport allUpdates projectId s = true := by
          unfold sendSucceedsFor
          rw [hempty, hok]
          rfl
        rw [hssf, Bool.and_true]
        rw [ih (updateLastSentAt db [s.id] now)
          (log ++ [sendRecordFor transport allUpdates projectId frequency now s])]
        rw [watermarkOf_updateLastSentAt]
        by_cases hsid : s.id = subId
        · rw [show (s.id == subId) = true from by simp [hsid], Bool.true_or, if_pos rfl]
          rw [show ([s.id].contains subId) = true from by simp [hsid]]
          by_cases hrest : rest.any (fun s =>
              s.id == subId && sendSucceedsFor transport allUpdates projectId s) = true
          · rw [if_pos hrest]
            cases hw : watermarkOf db subId <;> rfl
          · rw [if_neg hrest]
            cases hw : watermarkOf db subId <;> rfl
        · rw [show (s.id == subId) = false from by simp [hsid], Bool.false_or]
          rw [show ([s.id].contains subId) = false from by
            simp only [List.contains_cons, List.contains_nil, Bool.or_false]
            simp only [beq_eq_false_iff_ne, ne_eq]
            exact fun h => hsid h.symm]
          by_cases hrest : rest.any (fun s =>
              s.id == subId && sendSucceedsFor transport allUpdates projectId s) = true
          · rw [if_pos hrest, if_pos hrest]
            cases hw : watermarkOf db subId <;> rfl
          · rw [if_neg hrest, if_neg hrest]
            cases hw : watermarkOf db subId <;> rfl
      · rw [if_neg hok]
        rw [Bool.not_eq_true] at hok
        have hssf : sendSucceedsFor transport allUpdates projectId s = false := by
          unfold sendSucceedsFor
          rw [hok, Bool.and_false]
        rw [hssf, Bool.and_false, Bool.false_or]
        exact ih db
          (log ++ [sendRecordFor transport allUpdates projectId frequency now s])

/-- Log characterization of the sequential subscriber loop: one record per
iterated subscriber with a nonempty update window, in order. -/
theorem scheduledFold_log (transport : String → Bool)
    (allUpdates : List Update) (projectId : Nat) (frequency : Frequency)
    (now : Nat) (subscribers : List Subscription)
    (db : List Subscription) (log : List SendRecord) :
    (subscribers.foldl
        (scheduledStep transport allUpdates projectId frequency now) (db, log)).2 =
      log ++ subscribers.filterMap (fun s =>
        if (updatesFor allUpdates projectId s).isEmpty then none
        else some (sendRecordFor transport allUpdates projectId frequency now s)) := by
  induction subscribers generalizing db log with
  | nil => simp
  | cons s rest ih =>
    rw [List.foldl_cons, scheduledStep_eval, List.filterMap_cons]
    dsimp only
    by_cases hempty : (updatesFor allUpdates projectId s).isEmpty
    · rw [if_pos hempty, if_pos hempty]
      exact ih db log
    · rw [if_neg hempty, if_neg hempty]
      rw [ih (if transport s.email = true then updateLastSentAt db [s.id] now else db)
        (log ++ [sendRecordFor transport allUpdates projectId frequency now s])]
      rw [List.append_assoc]
      rfl

/-- With the project present, `processScheduledDigest` returns the loop
result over the frequency-matched subscriber snapshot (the empty-snapshot
early return coincides with the empty fold). -/
theorem processScheduledDigest_ok (projectIds : List Nat)
    (transport : String → Bool) (allUpdates : List Update)
    (dbSubs : List Subscription) (projectId : Nat) (frequency : Frequency)
    (now : Nat) (hproj : projectIds.contains projectId = true) :
    processScheduledDigest projectIds transport allUpdates dbSubs
        projectId frequency now =
      .ok ((dbSubs.filter (fun s =>
          s.projectId == projectId && s.frequency == frequency)).foldl
        (scheduledStep transport allUpdates projectId frequency now)
        (dbSubs, [])) := by
  unfold processScheduledDigest
  rw [if_neg (by rw [hproj]; simp)]
  dsimp only
  by_cases hempty : (dbSubs.filter (fun s =>
      s.projectId == projectId && s.frequency == frequency)).isEmpty
  · rw [if_pos hempty]
    rw [List.isEmpty_iff.mp hempty]
    rfl
  · rw [if_neg hempty]

/-- `markJobCompleted` on the row with id `j.id`: status becomes
`completed`, everything else untouched. -/
theorem markJobCompleted_jobRow (store : List Job) (j : Job)
    (hmem : j ∈ store) (hnd : (store.map (·.id)).Nodup) :
    jobRow (markJobCompleted store j.id) j.id =
      some { j with status := .completed } := by
  unfold markJobCompleted
  rw [jobRow_map_id_preserving _ _ _
    (fun x => by by_cases hx : x.id == j.id <;> simp [hx]),
      jobRow_eq_self store j hmem hnd]
  simp

/-- C6: `triggerInstantDigest(project_id, update_id)`: when the project has
no subscription with frequency `instant`, no job is enqueued and the call
returns normally; otherwise exactly one `instant_digest` job is appended
whose payload carries the project id, the update id, and the ids of exactly
the project's instant-frequency subscriptions snapshotted at enqueue time. -/
theorem triggerInstantDigest_spec (dbSubs : List Subscription) (jobs : List Job)
    (projectId updateId now newId : Nat) :
    ((∀ s ∈ dbSubs, ¬(s.projectId = projectId ∧ s.frequency = .instant)) →
      triggerInstantDigest dbSubs jobs projectId updateId now newId = jobs) ∧
    (∀ s₀ ∈ dbSubs, s₀.projectId = projectId → s₀.frequency = .instant →
      ∃ ids, triggerInstantDigest dbSubs jobs projectId updateId now newId =
          jobs ++ [{ id := newId,
                     payload := .instantDigest projectId updateId ids,
                     status := .pending, attempts := 0,
                     scheduledFor := now, createdAt := now }] ∧
        (JobPayload.instantDigest projectId updateId ids).jobType = .instant_digest ∧
        ∀ i, i ∈ ids ↔
          ∃ s ∈ dbSubs, s.id = i ∧ s.projectId = projectId ∧ s.frequency = .instant) := by
  constructor
  · intro hnone
    unfold triggerInstantDigest
    have hfil : dbSubs.filter (fun s =>
        s.projectId == projectId && s.frequency == Frequency.instant) = [] := by
      rw [List.filter_eq_nil_iff]
      intro s hs hps
      simp only [Bool.and_eq_true, beq_iff_eq] at hps
      exact hnone s hs ⟨hps.1, hps.2⟩
    rw [hfil]
    rfl
  · intro s₀ hs₀ hpid hfreq
    refine ⟨(dbSubs.filter (fun s =>
      s.projectId == projectId && s.frequency == Frequency.instant)).map (·.id), ?_, rfl, ?_⟩
    · unfold triggerInstantDigest
      simp only []
      have hne : (dbSubs.filter (fun s =>
          s.projectId == projectId && s.frequency == Frequency.instant)).isEmpty = false := by
        rw [List.isEmpty_eq_false_iff_exists_mem]
        exact ⟨s₀, List.mem_filter.mpr ⟨hs₀, by simp [hpid, hfreq]⟩⟩
      rw [hne]
      rfl
    · intro i
      constructor
      · intro hi
        rcases List.mem_map.mp hi with ⟨s, hsf, rfl⟩
        rcases List.mem_filter.mp hsf with ⟨hsm, hps⟩
        simp only [Bool.and_eq_true, beq_iff_eq] at hps
        exact ⟨s, hsm, rfl, hps.1, hps.2⟩
      · rintro ⟨s, hsm, rfl, hsp, hsf⟩
        exact List.mem_map.mpr ⟨s, List.mem_filter.mpr ⟨hsm, by simp [hsp, hsf]⟩, rfl⟩

/-- Witness for C6 at a concrete database: project 1 has one instant
subscriber (id 7) and one daily subscriber (id 8); triggering enqueues one
`instant_digest` job snapshotting exactly `[7]`. -/
theorem triggerInstantDigest_spec_witness :
    ∃ ids, triggerInstantDigest
        [{ id := 7, projectId := 1, email := "a", frequency := .instant,
           lastSentAt := none, createdAt := 0 },
         { id := 8, projectId := 1, email := "b", frequency := .daily,
           lastSentAt := none, createdAt := 0 }] [] 1 10 1000 5 =
        [{ id := 5, payload := .instantDigest 1 10 ids, status := .pending,
           attempts := 0, scheduledFor := 1000, createdAt := 1000 }] ∧
      (JobPayload.instantDigest 1 10 ids).jobType = .instant_digest ∧
      ∀ i, i ∈ ids ↔
        ∃ s ∈ ([{ id := 7, projectId := 1, email := "a", frequency := Frequency.instant,
                  lastSentAt := none, createdAt := 0 },
                { id := 8, projectId := 1, email := "b", frequency := Frequency.daily,
                  lastSentAt := none, createdAt := 0 }] : List Subscription),
          s.id = i ∧ s.projectId = 1 ∧ s.frequency = .instant := by
  have h := (triggerInstantDigest_spec
    [{ id := 7, projectId := 1, email := "a", frequency := .instant,
       lastSentAt := none, createdAt := 0 },
     { id := 8, projectId := 1, email := "b", frequency := .daily,
       lastSentAt := none, createdAt := 0 }] [] 1 10 1000 5).2
    { id := 7, projectId := 1, email := "a", frequency := .instant,
      lastSentAt := none, createdAt := 0 } (by decide) rfl rfl
  simpa using h

/-- C9: subscribing an email to a project that already has a subscription
row for that `(project, email)` pair updates the existing row's frequency to
the new value instead of inserting a second row: the table keeps its length,
the `(project, email)` pair still matches exactly one row — the old row with
its frequency overwritten — and every other row is untouched. -/
theorem subscribeToProject_existing (dbSubs : List Subscription)
    (projectId : Nat) (email : String) (freq : Frequency) (now newId : Nat)
    (ex : Subscription) (hex : ex ∈ dbSubs) (hpid : ex.projectId = projectId)
    (hemail : ex.email = email)
    (hnd : (dbSubs.map (·.id)).Nodup)
    (huniq : ∀ s ∈ dbSubs, s.projectId = projectId → s.email = email → s = ex) :
    (subscribeToProject dbSubs projectId email freq now newId).length = dbSubs.length ∧
    (subscribeToProject dbSubs projectId email freq now newId).filter
        (fun s => s.projectId == projectId && s.email == email) =
      [{ ex with frequency := freq }] ∧
    ∀ s ∈ dbSubs, s.id ≠ ex.id →
      s ∈ subscribeToProject dbSubs projectId email freq now newId := by
  have hfind : dbSubs.find? (fun s => s.projectId == projectId && s.email == email) =
      some ex := by
    refine find?_eq_some_of_unique hex (by simp [hpid, hemail]) ?_
    intro y hy hpy
    simp only [Bool.and_eq_true, beq_iff_eq] at hpy
    exact huniq y hy hpy.1 hpy.2
  unfold subscribeToProject
  rw [hfind]
  simp only
  refine ⟨List.length_map dbSubs _, ?_, ?_⟩
  · have hcomp : ((fun s : Subscription => s.projectId == projectId && s.email == email) ∘
        (fun s : Subscription =>
          if s.id == ex.id then { s with frequency := freq } else s)) =
        (fun s : Subscription => s.projectId == projectId && s.email == email) := by
      funext x
      by_cases hx : x.id == ex.id <;> simp [Function.comp, hx]
    rw [List.filter_map, hcomp]
    have hsingle : dbSubs.filter
        (fun s => s.projectId == projectId && s.email == email) = [ex] := by
      refine filter_eq_singleton_of_unique (List.Nodup.of_map _ hnd) hex
        (by simp [hpid, hemail]) ?_
      intro y hy hpy
      simp only [Bool.and_eq_true, beq_iff_eq] at hpy
      exact huniq y hy hpy.1 hpy.2
    rw [hsingle]
    simp
  · intro s hs hsid
    refine List.mem_map.mpr ⟨s, hs, ?_⟩
    simp [hsid]

/-- Witness for C9: project 1 already holds `(1, "d")` with frequency
`instant` (row id 3); re-subscribing "d" as `daily` keeps two rows, keeps a
single `(1, "d")` row — row 3 with frequency `daily` — and row 4 stays. -/
theorem subscribeToProject_existing_witness :
    (subscribeToProject
      [{ id := 3, projectId := 1, email := "d", frequency := .instant,
         lastSentAt := some 50, createdAt := 0 },
       { id := 4, projectId := 1, email := "e", frequency := .daily,
         lastSentAt := none, createdAt := 0 }] 1 "d" .daily 1000 9).length = 2 ∧
    (subscribeToProject
      [{ id := 3, projectId := 1, email := "d", frequency := .instant,
         lastSentAt := some 50, createdAt := 0 },
       { id := 4, projectId := 1, email := "e", frequency := .daily,
         lastSentAt := none, createdAt := 0 }] 1 "d" .daily 1000 9).filter
        (fun s => s.projectId == 1 && s.email == "d") =
      [{ id := 3, projectId := 1, email := "d", frequency := .daily,
         lastSentAt := some 50, createdAt := 0 }] := by
  have h := subscribeToProject_existing
    [{ id := 3, projectId := 1, email := "d", frequency := .instant,
       lastSentAt := some 50, createdAt := 0 },
     { id := 4, projectId := 1, email := "e", frequency := .daily,
       lastSentAt := none, createdAt := 0 }] 1 "d" .daily 1000 9
    { id := 3, projectId := 1, email := "d", frequency := .instant,
      lastSentAt := some 50, createdAt := 0 }
    (by decide) rfl rfl (by decide) (by decide)
  exact ⟨h.1, h.2.1⟩

/-- C3: for every subscriber processed by `processScheduledDigest` (daily or
weekly), the set of updates sent is exactly those with `created_at` strictly
greater than the subscriber's `last_sent_at` (all historical updates when
`last_sent_at` is null, given positive timestamps); the weekly 7-day window
is carried only as the display label (`displayStart`) and never used as the
query boundary (the weekly and daily update sets coincide); and on success
the watermark advances to `now`. -/
theorem processScheduledDigest_query_window (projectIds : List Nat)
    (transport : String → Bool) (allUpdates : List Update)
    (dbSubs : List Subscription) (projectId : Nat) (frequency : Frequency)
    (now : Nat) (s : Subscription)
    (result : List Subscription × List SendRecord)
    (hproj : projectIds.contains projectId = true)
    (hs : s ∈ dbSubs) (hpid : s.projectId = projectId)
    (hfreq : s.frequency = frequency)
    (hne : (updatesFor allUpdates projectId s).isEmpty = false)
    (hres : processScheduledDigest projectIds transport allUpdates dbSubs
        projectId frequency now = .ok result) :
    sendRecordFor transport allUpdates projectId frequency now s ∈ result.2 ∧
    (∀ uid, uid ∈ (sendRecordFor transport allUpdates projectId frequency now s).updateIds ↔
      ∃ u ∈ allUpdates, u.id = uid ∧ u.projectId = projectId ∧
        s.lastSentAt.getD 0 < u.createdAt) ∧
    (s.lastSentAt = none → ∀ u ∈ allUpdates, u.projectId = projectId →
      0 < u.createdAt →
      u.id ∈ (sendRecordFor transport allUpdates projectId frequency now s).updateIds) ∧
    ((sendRecordFor transport allUpdates projectId .weekly now s).updateIds =
      (sendRecordFor transport allUpdates projectId .daily now s).updateIds ∧
     (sendRecordFor transport allUpdates projectId .weekly now s).displayStart =
      some (now - 7 * msPerDay)) ∧
    (transport s.email = true → watermarkOf result.1 s.id = some (some now)) := by
  rw [processScheduledDigest_ok projectIds transport allUpdates dbSubs
    projectId frequency now hproj] at hres
  have hresult := Except.ok.inj hres
  have hsfil : s ∈ dbSubs.filter (fun s =>
      s.projectId == projectId && s.frequency == frequency) :=
    List.mem_filter.mpr ⟨hs, by simp [hpid, hfreq]⟩
  have hiff : ∀ uid,
      uid ∈ (sendRecordFor transport allUpdates projectId frequency now s).updateIds ↔
      ∃ u ∈ allUpdates, u.id = uid ∧ u.projectId = projectId ∧
        s.lastSentAt.getD 0 < u.createdAt := by
    intro uid
    unfold sendRecordFor updatesFor
    simp only [List.mem_map, List.mem_filter, Bool.and_eq_true, beq_iff_eq,
      decide_eq_true_eq]
    constructor
    · rintro ⟨u, ⟨hu, hup, hlt⟩, rfl⟩
      exact ⟨u, hu, rfl, hup, hlt⟩
    · rintro ⟨u, hu, rfl, hup, hlt⟩
      exact ⟨u, ⟨hu, hup, hlt⟩, rfl⟩
  refine ⟨?_, hiff, ?_, ⟨rfl, rfl⟩, ?_⟩
  · rw [← hresult]
    rw [scheduledFold_log]
    refine List.mem_filterMap.mpr ⟨s, hsfil, ?_⟩
    rw [hne]
    rfl
  · intro h0 u hu hup hpos
    exact (hiff u.id).mpr ⟨u, hu, rfl, hup, by rw [h0]; exact hpos⟩
  · intro htr
    rw [← hresult]
    rw [scheduledFold_watermark]
    have hany : ((dbSubs.filter (fun s =>
        s.projectId == projectId && s.frequency == frequency)).any (fun x =>
          x.id == s.id && sendSucceedsFor transport allUpdates projectId x)) = true := by
      rw [List.any_eq_true]
      refine ⟨s, hsfil, ?_⟩
      unfold sendSucceedsFor
      rw [hne, htr]
      simp
    rw [hany, if_pos rfl]
    cases hfind : dbSubs.find? (fun x => x.id == s.id) with
    | none =>
      exfalso
      have := List.find?_eq_none.mp hfind s hs
      simp at this
    | some r =>
      unfold watermarkOf
      rw [hfind]
      rfl

/-- Witness for C3 (weekly catch-up): the subscriber's watermark is 10 days
old (`lastSentAt = 100`, `now = 864000000` ms), and both updates — one
created well before the trailing 7-day display window — are sent in one
digest, after which the watermark is `now`. -/
theorem processScheduledDigest_query_window_witness :
    sendRecordFor (fun _ => true) [⟨1, 1, 200⟩, ⟨2, 1, 600000000⟩] 1 .weekly
        864000000 ⟨7, 1, "c", .weekly, some 100, 0⟩ ∈
      ([⟨7, "c", [1, 2], true, some 259200000⟩] : List SendRecord) ∧
    watermarkOf [⟨7, 1, "c", .weekly, some 864000000, 0⟩] 7 =
      some (some 864000000) := by
  have h := processScheduledDigest_query_window [1] (fun _ => true)
    [⟨1, 1, 200⟩, ⟨2, 1, 600000000⟩] [⟨7, 1, "c", .weekly, some 100, 0⟩] 1 .weekly
    864000000 ⟨7, 1, "c", .weekly, some 100, 0⟩
    ([⟨7, 1, "c", .weekly, some 864000000, 0⟩],
     [⟨7, "c", [1, 2], true, some 259200000⟩])
    rfl (List.mem_singleton.mpr rfl) rfl rfl rfl rfl
  exact ⟨h.1, h.2.2.2.2 rfl⟩

/-- C5: for every subscriber whose `last_sent_at` is at least as recent as
the `created_at` of every update of the project, `processScheduledDigest`
performs no transport send for that subscriber (no record of it appears in
the transport-call log) and leaves that subscriber's `last_sent_at`
unchanged — no empty digest is ever sent. -/
theorem processScheduledDigest_no_empty (projectIds : List Nat)
    (transport : String → Bool) (allUpdates : List Update)
    (dbSubs : List Subscription) (projectId : Nat) (frequency : Frequency)
    (now t : Nat) (s : Subscription)
    (result : List Subscription × List SendRecord)
    (hproj : projectIds.contains projectId = true)
    (hs : s ∈ dbSubs)
    (hnd : (dbSubs.map (·.id)).Nodup)
    (hlast : s.lastSentAt = some t)
    (hold : ∀ u ∈ allUpdates, u.projectId = projectId → u.createdAt ≤ t)
    (hres : processScheduledDigest projectIds transport allUpdates dbSubs
        projectId frequency now = .ok result) :
    (∀ r ∈ result.2, r.subId ≠ s.id) ∧
    watermarkOf result.1 s.id = some (some t) := by
  rw [processScheduledDigest_ok projectIds transport allUpdates dbSubs
    projectId frequency now hproj] at hres
  have hresult := Except.ok.inj hres
  have hupd : updatesFor allUpdates projectId s = [] := by
    unfold updatesFor
    rw [List.filter_eq_nil_iff]
    intro u hu
    simp only [Bool.and_eq_true, beq_iff_eq, decide_eq_true_eq, not_and]
    intro hup hlt
    have := hold u hu hup
    rw [hlast] at hlt
    simp only [Option.getD_some] at hlt
    omega
  constructor
  · intro r hr
    rw [← hresult] at hr
    rw [scheduledFold_log] at hr
    simp only [List.nil_append] at hr
    rcases List.mem_filterMap.mp hr with ⟨s', hs'fil, hs'r⟩
    rcases List.mem_filter.mp hs'fil with ⟨hs'mem, _⟩
    intro hrid
    have hs'id : s'.id = s.id := by
      by_cases hemp : (updatesFor allUpdates projectId s').isEmpty = true
      · rw [if_pos hemp] at hs'r
        cases hs'r
      · rw [if_neg hemp] at hs'r
        have := Option.some.inj hs'r
        rw [← this] at hrid
        exact hrid
    have hss : s' = s := List.inj_on_of_nodup_map hnd hs'mem hs hs'id
    rw [hss, hupd] at hs'r
    simp at hs'r
  · rw [← hresult]
    rw [scheduledFold_watermark]
    have hany : ((dbSubs.filter (fun x =>
        x.projectId == projectId && x.frequency == frequency)).any (fun x =>
          x.id == s.id && sendSucceedsFor transport allUpdates projectId x)) = false := by
      rw [← Bool.not_eq_true, List.any_eq_true]
      rintro ⟨s', hs'fil, hs'p⟩
      rcases List.mem_filter.mp hs'fil with ⟨hs'mem, _⟩
      simp only [Bool.and_eq_true, beq_iff_eq] at hs'p
      have hss : s' = s := List.inj_on_of_nodup_map hnd hs'mem hs hs'p.1
      have := hs'p.2
      rw [hss] at this
      unfold sendSucceedsFor at this
      rw [hupd] at this
      simp at this
    rw [hany]
    simp only [Bool.false_eq_true, if_neg, not_false_iff]
    unfold watermarkOf
    rw [find?_eq_some_of_unique hs (by simp)
      (fun y hy hpy => List.inj_on_of_nodup_map hnd hy hs (by simpa using hpy))]
    simp [hlast]

/-- Witness for C5: the only update (created at 300) predates the
subscriber's watermark (500), so the log stays empty and the watermark
stays 500 even though the transport would succeed. -/
theorem processScheduledDigest_no_empty_witness :
    (∀ r ∈ (([⟨7, 1, "c", .daily, some 500, 0⟩],
        []) : List Subscription × List SendRecord).2, r.subId ≠ 7) ∧
    watermarkOf ([⟨7, 1, "c", .daily, some 500, 0⟩] : List Subscription) 7 =
      some (some 500) := by
  have h := processScheduledDigest_no_empty [1] (fun _ => true) [⟨1, 1, 300⟩]
    [⟨7, 1, "c", .daily, some 500, 0⟩] 1 .daily 1000 500
    ⟨7, 1, "c", .daily, some 500, 0⟩ ([⟨7, 1, "c", .daily, some 500, 0⟩], [])
    rfl (List.mem_singleton.mpr rfl) (by decide) rfl (by decide) rfl
  exact h

/-- After the subscriber loop, a subscriber with a successful nonempty send
holds watermark `now`. -/
theorem foldResult_watermark_now (transport : String → Bool)
    (allUpdates : List Update) (projectId : Nat) (frequency : Frequency)
    (now : Nat) (dbSubs : List Subscription) (s : Subscription)
    (hs : s ∈ dbSubs) (hpid : s.projectId = projectId)
    (hfreq : s.frequency = frequency)
    (hssf : sendSucceedsFor transport allUpdates projectId s = true) :
    watermarkOf ((dbSubs.filter (fun x =>
        x.projectId == projectId && x.frequency == frequency)).foldl
      (scheduledStep transport allUpdates projectId frequency now)
      (dbSubs, [])).1 s.id = some (some now) := by
  rw [scheduledFold_watermark]
  have hany : ((dbSubs.filter (fun x =>
      x.projectId == projectId && x.frequency == frequency)).any (fun x =>
        x.id == s.id && sendSucceedsFor transport allUpdates projectId x)) = true := by
    rw [List.any_eq_true]
    exact ⟨s, List.mem_filter.mpr ⟨hs, by simp [hpid, hfreq]⟩, by simp [hssf]⟩
  rw [hany, if_pos rfl]
  cases hfind : dbSubs.find? (fun x => x.id == s.id) with
  | none =>
    exfalso
    have := List.find?_eq_none.mp hfind s hs
    simp at this
  | some r =>
    unfold watermarkOf
    rw [hfind]
    rfl

/-- After the subscriber loop, a subscriber whose send does not succeed
(empty window or failed transport) keeps its watermark. -/
theorem foldResult_watermark_unchanged (transport : String → Bool)
    (allUpdates : List Update) (projectId : Nat) (frequency : Frequency)
    (now : Nat) (dbSubs : List Subscription) (s : Subscription)
    (hs : s ∈ dbSubs) (hnd : (dbSubs.map (·.id)).Nodup)
    (hssf : sendSucceedsFor transport allUpdates projectId s = false) :
    watermarkOf ((dbSubs.filter (fun x =>
        x.projectId == projectId && x.frequency == frequency)).foldl
      (scheduledStep transport allUpdates projectId frequency now)
      (dbSubs, [])).1 s.id = some s.lastSentAt := by
  rw [scheduledFold_watermark]
  have hany : ((dbSubs.filter (fun x =>
      x.projectId == projectId && x.frequency == frequency)).any (fun x =>
        x.id == s.id && sendSucceedsFor transport allUpdates projectId x)) = false := by
    rw [← Bool.not_eq_true, List.any_eq_true]
    rintro ⟨s', hs'fil, hs'p⟩
    rcases List.mem_filter.mp hs'fil with ⟨hs'mem, _⟩
    simp only [Bool.and_eq_true, beq_iff_eq] at hs'p
    have hss : s' = s := List.inj_on_of_nodup_map hnd hs'mem hs hs'p.1
    rw [hss, hssf] at hs'p
    cases hs'p.2
  rw [hany]
  simp only [Bool.false_eq_true, if_neg, not_false_iff]
  unfold watermarkOf
  rw [find?_eq_some_of_unique hs (by simp)
    (fun y hy hpy => List.inj_on_of_nodup_map hnd hy hs (by simpa using hpy))]
  rfl

/-- C2: a scheduled digest job in which some recipients' sends succeed and
some fail still finishes `completed` (partial recipient failure is not a job
failure), the watermark advances to `now` exactly for subscribers whose send
succeeded, and the watermark of a subscriber whose send failed is
unchanged. -/
theorem processJob_partial_failure (projectIds : List Nat)
    (transport : String → Bool) (allUpdates : List Update)
    (jobs : List Job) (dbSubs : List Subscription) (job : Job) (now : Nat)
    (projectId : Nat) (frequency : Frequency)
    (hpayload : job.payload = .dailyDigest projectId ∧ frequency = .daily ∨
                job.payload = .weeklyDigest projectId ∧ frequency = .weekly)
    (hproj : projectIds.contains projectId = true)
    (hjob : job ∈ jobs) (hjnd : (jobs.map (·.id)).Nodup)
    (hsnd : (dbSubs.map (·.id)).Nodup)
    (sOk sBad : Subscription)
    (hOk : sOk ∈ dbSubs) (hOkp : sOk.projectId = projectId)
    (hOkf : sOk.frequency = frequency)
    (hOkne : (updatesFor allUpdates projectId sOk).isEmpty = false)
    (hOktr : transport sOk.email = true)
    (hBad : sBad ∈ dbSubs) (hBadp : sBad.projectId = projectId)
    (hBadf : sBad.frequency = frequency)
    (hBadne : (updatesFor allUpdates projectId sBad).isEmpty = false)
    (hBadtr : transport sBad.email = false) :
    jobRow (processJob projectIds transport allUpdates jobs dbSubs job now).1 job.id =
      some { job with status := .completed, attempts := job.attempts + 1 } ∧
    watermarkOf (processJob projectIds transport allUpdates jobs dbSubs job now).2
      sOk.id = some (some now) ∧
    watermarkOf (processJob projectIds transport allUpdates jobs dbSubs job now).2
      sBad.id = some sBad.lastSentAt := by
  have hbody : processJob projectIds transport allUpdates jobs dbSubs job now =
      (markJobCompleted (markJobProcessing jobs job.id) job.id,
       ((dbSubs.filter (fun x =>
          x.projectId == projectId && x.frequency == frequency)).foldl
        (scheduledStep transport allUpdates projectId frequency now)
        (dbSubs, [])).1) := by
    rcases hpayload with ⟨hp, rfl⟩ | ⟨hp, rfl⟩ <;>
    · unfold processJob
      rw [hp]
      dsimp only
      rw [processScheduledDigest_ok _ _ _ _ _ _ _ hproj]
      rfl
  rw [hbody]
  refine ⟨?_, ?_, ?_⟩
  · have h := markJobCompleted_jobRow (markJobProcessing jobs job.id)
      { job with status := JobStatus.processing, attempts := job.attempts + 1 }
      (by unfold markJobProcessing; exact List.mem_map.mpr ⟨job, hjob, by simp⟩)
      (by rw [markJobProcessing_ids]; exact hjnd)
    simpa using h
  · exact foldResult_watermark_now transport allUpdates projectId frequency now
      dbSubs sOk hOk hOkp hOkf (by unfold sendSucceedsFor; rw [hOkne, hOktr]; rfl)
  · exact foldResult_watermark_unchanged transport allUpdates projectId frequency now
      dbSubs sBad hBad hsnd (by unfold sendSucceedsFor; rw [hBadtr, Bool.and_false])

/-- Witness for C2: three daily subscribers, the transport fails exactly for
"b"; the daily job completes, "a"'s watermark advances to `now = 1000`, and
"b"'s stays `none`. -/
theorem processJob_partial_failure_witness :
    jobRow (processJob [1] (fun e => e != "b") [⟨1, 1, 100⟩]
        [⟨99, .dailyDigest 1, .pending, 0, 0, 0⟩]
        [⟨1, 1, "a", .daily, none, 0⟩, ⟨2, 1, "b", .daily, none, 0⟩,
         ⟨3, 1, "c", .daily, none, 0⟩]
        ⟨99, .dailyDigest 1, .pending, 0, 0, 0⟩ 1000).1 99 =
      some ⟨99, .dailyDigest 1, .completed, 0 + 1, 0, 0⟩ ∧
    watermarkOf (processJob [1] (fun e => e != "b") [⟨1, 1, 100⟩]
        [⟨99, .dailyDigest 1, .pending, 0, 0, 0⟩]
        [⟨1, 1, "a", .daily, none, 0⟩, ⟨2, 1, "b", .daily, none, 0⟩,
         ⟨3, 1, "c", .daily, none, 0⟩]
        ⟨99, .dailyDigest 1, .pending, 0, 0, 0⟩ 1000).2 1 = some (some 1000) ∧
    watermarkOf (processJob [1] (fun e => e != "b") [⟨1, 1, 100⟩]
        [⟨99, .dailyDigest 1, .pending, 0, 0, 0⟩]
        [⟨1, 1, "a", .daily, none, 0⟩, ⟨2, 1, "b", .daily, none, 0⟩,
         ⟨3, 1, "c", .daily, none, 0⟩]
        ⟨99, .dailyDigest 1, .pending, 0, 0, 0⟩ 1000).2 2 = some none := by
  have h := processJob_partial_failure [1] (fun e => e != "b") [⟨1, 1, 100⟩]
    [⟨99, .dailyDigest 1, .pending, 0, 0, 0⟩]
    [⟨1, 1, "a", .daily, none, 0⟩, ⟨2, 1, "b", .daily, none, 0⟩,
     ⟨3, 1, "c", .daily, none, 0⟩]
    ⟨99, .dailyDigest 1, .pending, 0, 0, 0⟩ 1000 1 .daily
    (Or.inl ⟨rfl, rfl⟩) rfl (by decide) (by decide) (by decide)
    ⟨1, 1, "a", .daily, none, 0⟩ ⟨2, 1, "b", .daily, none, 0⟩
    (by decide) rfl rfl (by decide) (by decide)
    (by decide) rfl rfl (by decide) (by decide)
  exact h

/-- `WatermarkStep` composes. -/
theorem watermarkStep_trans (now : Nat) (x y z : Subscription)
    (h1 : WatermarkStep now x y) (h2 : WatermarkStep now y z) :
    WatermarkStep now x z := by
  rcases h1 with rfl | rfl
  · exact h2
  · rcases h2 with rfl | rfl
    · exact Or.inr rfl
    · exact Or.inr rfl

/-- `Forall₂` composes along a composable relation. -/
theorem forall₂_trans_of {α} {R : α → α → Prop}
    (htrans : ∀ x y z, R x y → R y z → R x z) :
    ∀ {l₁ l₂ l₃ : List α}, List.Forall₂ R l₁ l₂ → List.Forall₂ R l₂ l₃ →
      List.Forall₂ R l₁ l₃ := by
  intro l₁ l₂ l₃ h12
  induction h12 generalizing l₃ with
  | nil =>
    intro h23
    cases h23
    exact .nil
  | cons hab h ih =>
    intro h23
    cases h23 with
    | cons hbc h' => exact .cons (htrans _ _ _ hab hbc) (ih h')

/-- `updateLastSentAt` is row-wise a `WatermarkStep`. -/
theorem watermarkStep_updateLastSentAt (db : List Subscription)
    (ids : List Nat) (now : Nat) :
    List.Forall₂ (WatermarkStep now) db (updateLastSentAt db ids now) := by
  unfold updateLastSentAt
  by_cases hids : ids.isEmpty
  · rw [if_pos hids]
    exact List.forall₂_same.mpr (fun x _ => Or.inl rfl)
  · rw [if_neg hids]
    rw [List.forall₂_map_right_iff]
    refine List.forall₂_same.mpr (fun x _ => ?_)
    split
    · exact Or.inr rfl
    · exact Or.inl rfl

/-- The subscriber loop of `processScheduledDigest` is row-wise a
`WatermarkStep` on the subscription table. -/
theorem watermarkStep_scheduledFold (transport : String → Bool)
    (allUpdates : List Update) (projectId : Nat) (frequency : Frequency)
    (now : Nat) (subscribers : List Subscription)
    (db : List Subscription) (log : List SendRecord) :
    List.Forall₂ (WatermarkStep now) db
      (subscribers.foldl
        (scheduledStep transport allUpdates projectId frequency now) (db, log)).1 := by
  induction subscribers generalizing db log with
  | nil => exact List.forall₂_same.mpr (fun x _ => Or.inl rfl)
  | cons s rest ih =>
    rw [List.foldl_cons, scheduledStep_eval]
    dsimp only
    by_cases hempty : (updatesFor allUpdates projectId s).isEmpty
    · rw [if_pos hempty]
      exact ih db log
    · rw [if_neg hempty]
      by_cases hok : transport s.email = true
      · rw [if_pos hok]
        exact forall₂_trans_of (watermarkStep_trans now)
          (watermarkStep_updateLastSentAt db [s.id] now)
          (ih (updateLastSentAt db [s.id] now)
            (log ++ [sendRecordFor transport allUpdates projectId frequency now s]))
      · rw [if_neg hok]
        exact ih db
          (log ++ [sendRecordFor transport allUpdates projectId frequency now s])

/-- Every digest-processing operation is row-wise a `WatermarkStep` at its
own instant. -/
theorem watermarkStep_applyDigestOp (projectIds : List Nat)
    (allUpdates : List Update) (subs : List Subscription) (op : DigestOp) :
    List.Forall₂ (WatermarkStep op.time) subs
      (applyDigestOp projectIds allUpdates subs op) := by
  cases op with
  | instant pid uid sids transport now =>
    unfold applyDigestOp DigestOp.time processInstantDigest
    dsimp only
    by_cases h1 : projectIds.contains pid = true
    · rw [if_neg (by rw [h1]; simp)]
      by_cases h2 : allUpdates.any (fun u => u.id == uid) = true
      · rw [if_neg (by rw [h2]; simp)]
        dsimp only
        exact watermarkStep_updateLastSentAt subs _ now
      · rw [Bool.not_eq_true] at h2
        rw [if_pos (by rw [h2]; rfl)]
        exact List.forall₂_same.mpr (fun x _ => Or.inl rfl)
    · rw [Bool.not_eq_true] at h1
      rw [if_pos (by rw [h1]; rfl)]
      exact List.forall₂_same.mpr (fun x _ => Or.inl rfl)
  | scheduled pid freq transport now =>
    unfold applyDigestOp DigestOp.time processScheduledDigest
    dsimp only
    by_cases h1 : projectIds.contains pid = true
    · rw [if_neg (by rw [h1]; simp)]
      by_cases hempty : (subs.filter (fun s =>
          s.projectId == pid && s.frequency == freq)).isEmpty
      · rw [if_pos hempty]
        exact List.forall₂_same.mpr (fun x _ => Or.inl rfl)
      · rw [if_neg hempty]
        exact watermarkStep_scheduledFold transport allUpdates pid freq now _ subs []
    · rw [Bool.not_eq_true] at h1
      rw [if_pos (by rw [h1]; rfl)]
      exact List.forall₂_same.mpr (fun x _ => Or.inl rfl)

/-- A `WatermarkStep` at an instant not earlier than every present
watermark is monotone, and bounds the resulting watermark by that
instant. -/
theorem subMono_of_watermarkStep (T now : Nat) (hTn : T ≤ now)
    (x y : Subscription) (hb : ∀ a, x.lastSentAt = some a → a ≤ T)
    (hstep : WatermarkStep now x y) :
    SubMono x y ∧ ∀ a, y.lastSentAt = some a → a ≤ now := by
  rcases hstep with rfl | rfl
  · exact ⟨⟨rfl, fun a ha => ⟨a, ha, Nat.le_refl a⟩⟩,
      fun a ha => Nat.le_trans (hb a ha) hTn⟩
  · refine ⟨⟨rfl, fun a ha => ⟨now, rfl, Nat.le_trans (hb a ha) hTn⟩⟩, ?_⟩
    intro a ha
    have : some now = some a := ha
    rw [← Option.some.inj this]

/-- `SubMono` composes. -/
theorem subMono_trans (x y z : Subscription)
    (h1 : SubMono x y) (h2 : SubMono y z) : SubMono x z := by
  refine ⟨h2.1.trans h1.1, fun a ha => ?_⟩
  rcases h1.2 a ha with ⟨b, hb, hab⟩
  rcases h2.2 b hb with ⟨c, hc, hbc⟩
  exact ⟨c, hc, Nat.le_trans hab hbc⟩

/-- Lifting `subMono_of_watermarkStep` to tables. -/
theorem forall₂_subMono_of_step (now T : Nat) (hTn : T ≤ now) :
    ∀ {l₁ l₂ : List Subscription}, List.Forall₂ (WatermarkStep now) l₁ l₂ →
      (∀ s ∈ l₁, ∀ a, s.lastSentAt = some a → a ≤ T) →
      List.Forall₂ SubMono l₁ l₂ ∧
        (∀ s ∈ l₂, ∀ a, s.lastSentAt = some a → a ≤ now) := by
  intro l₁ l₂ h
  induction h with
  | nil =>
    intro _
    exact ⟨.nil, fun s hs => absurd hs (List.not_mem_nil s)⟩
  | @cons x y l₁' l₂' hxy htail ih =>
    intro hb
    obtain ⟨hmono, hbound⟩ := ih (fun s hs => hb s (List.mem_cons_of_mem _ hs))
    obtain ⟨hm, hby⟩ := subMono_of_watermarkStep T now hTn x y
      (hb x (List.mem_cons_self _ _)) hxy
    refine ⟨.cons hm hmono, ?_⟩
    intro s hs
    rcases List.mem_cons.mp hs with rfl | hs'
    · exact hby
    · exact hbound s hs'

/-- C7: across any sequence of digest-processing operations (instant or
scheduled) whose wall-clock instants do not precede the watermarks already
present and do not go backwards, every subscription row keeps its id and its
`last_sent_at` never decreases; moreover each single operation only ever
leaves a row untouched or overwrites its watermark with that operation's
current time (the write happens only after a confirmed successful send, per
the per-operation theorems). -/
theorem watermark_monotone (projectIds : List Nat) (allUpdates : List Update)
    (subs : List Subscription) (ops : List DigestOp) (t0 : Nat)
    (hb : ∀ s ∈ subs, ∀ a, s.lastSentAt = some a → a ≤ t0)
    (hchain : List.Chain (· ≤ ·) t0 (ops.map DigestOp.time)) :
    List.Forall₂ SubMono subs (applyDigestOps projectIds allUpdates subs ops) ∧
    ∀ op : DigestOp, List.Forall₂ (WatermarkStep op.time) subs
      (applyDigestOp projectIds allUpdates subs op) := by
  refine ⟨?_, fun op => watermarkStep_applyDigestOp projectIds allUpdates subs op⟩
  induction ops generalizing subs t0 with
  | nil =>
    exact List.forall₂_same.mpr (fun x _ => ⟨rfl, fun a ha => ⟨a, ha, Nat.le_refl a⟩⟩)
  | cons op rest ih =>
    rw [List.map_cons] at hchain
    obtain ⟨hle, hchain'⟩ := List.chain_cons.mp hchain
    have hstep := watermarkStep_applyDigestOp projectIds allUpdates subs op
    obtain ⟨hmono, hbound⟩ := forall₂_subMono_of_step op.time t0 hle hstep hb
    have hrest := ih (applyDigestOp projectIds allUpdates subs op) op.time hbound hchain'
    exact forall₂_trans_of subMono_trans hmono hrest

/-- Witness for C7: one subscriber with watermark 100; a successful daily
run at time 200 then a successful instant run at time 300 — the final table
is row-wise `SubMono` above the initial table. -/
theorem watermark_monotone_witness :
    List.Forall₂ SubMono ([⟨1, 1, "a", .daily, some 100, 0⟩] : List Subscription)
      (applyDigestOps [1] [⟨5, 1, 150⟩] [⟨1, 1, "a", .daily, some 100, 0⟩]
        [.scheduled 1 .daily (fun _ => true) 200,
         .instant 1 5 [1] (fun _ => true) 300]) := by
  have h := watermark_monotone [1] [⟨5, 1, 150⟩] [⟨1, 1, "a", .daily, some 100, 0⟩]
    [.scheduled 1 .daily (fun _ => true) 200, .instant 1 5 [1] (fun _ => true) 300]
    100
    (by
      intro s hs a ha
      rw [List.mem_singleton] at hs
      subst hs
      have : a = 100 := (Option.some.inj ha).symm
      omega)
    (List.Chain.cons (by decide) (List.Chain.cons (by decide) List.Chain.nil))
  exact h.1

end StatusPingMe
